import Mathlib

/-!
Verification development for the Stewart-platform neck controller
(`src/main.cpp`).  The C++ program is shallowly embedded:

* Arduino `String` values are modelled as `List Char`; the library
  operations `trim`, `indexOf`/`substring` scanning, `toInt` (= `atol`),
  `toFloat` (= `strtod` on the decimal forms used by this firmware),
  `equalsIgnoreCase`, `charAt` and `startsWith` are given executable
  models below.
* C++ `int` is modelled as `Int` (unbounded).  Every arithmetic step of
  the firmware multiplies small integers by the exactly representable
  constants 10.0 and 400.0, or truncates a `float`/`double` to `int`;
  in the ranges exercised here those float operations are exact, so the
  integer model is faithful.  `float`/`double` values are modelled as
  `ℚ`; float-to-int conversion is `qTrunc` (truncation toward zero, as
  in C++), and the C `round` function is `qRound` (half away from
  zero).
* The controller state (the six `FastAccelStepper` handles, the
  `bypassClamp` flag, the speed/acceleration gains and the serial logs)
  is a `MachineState` record threaded explicitly through the command
  functions.
* The transcendental calls `sqrt`, `atan2`, `asin` and the double
  constant `180.0/PI` of the quaternion path are parameters of the
  embedding (`FloatOps`); theorems about that path assume only the
  values those functions take at the points actually evaluated, values
  shared by the real functions and their IEEE-754 implementations
  (for example `sqrt 1 = 1`, `atan2 0 1 = 0`, `asin 0 = 0`).
-/

/-- Convert a Lean string literal to the character-list model of an
Arduino `String`. -/
def chars (s : String) : List Char := s.data

/-- Characters accepted by `isspace`, which Arduino's `String.trim`
removes from both ends. -/
def isSpaceA (c : Char) : Bool :=
  c == ' ' || c == '\t' || c == '\n' || c == '\x0b' || c == '\x0c' || c == '\r'

/-- Model of Arduino `String::trim`: drop `isspace` characters from both
ends. -/
def trimChars (l : List Char) : List Char :=
  ((l.dropWhile isSpaceA).reverse.dropWhile isSpaceA).reverse

/-- ASCII lower-casing, as used by `String::equalsIgnoreCase` (which
compares `tolower` of corresponding characters). -/
def lowerA (c : Char) : Char :=
  if 'A' ≤ c ∧ c ≤ 'Z' then Char.ofNat (c.toNat + 32) else c

/-- Model of Arduino `String::equalsIgnoreCase`. -/
def eqIgnoreCase (a b : List Char) : Bool :=
  a.map lowerA == b.map lowerA

/-- Accumulate a decimal digit run, returning the value and the unread
suffix.  This is the digit loop shared by `atol` and `strtod`. -/
def scanDigits : Nat → List Char → Nat × List Char
  | acc, [] => (acc, [])
  | acc, c :: cs =>
    if c.isDigit then scanDigits (acc * 10 + (c.toNat - 48)) cs
    else (acc, c :: cs)

/-- Model of Arduino `String::toInt` (C `atol`): skip leading
whitespace, read an optional sign and a digit run, ignore everything
after the first non-digit, and return 0 when no digits are present. -/
def atolChars (l : List Char) : Int :=
  let l1 := l.dropWhile isSpaceA
  match l1 with
  | '-' :: r => -(((scanDigits 0 r).1 : Int))
  | '+' :: r => ((scanDigits 0 r).1 : Int)
  | _ => ((scanDigits 0 l1).1 : Int)

/-- Value of an unsigned decimal form `digits[.digits]`, the shape
`strtod` reads in every command this firmware receives (exponent and
hex forms never occur on this input language). -/
def unsignedFloatQ (l : List Char) : ℚ :=
  let p := scanDigits 0 l
  match p.2 with
  | '.' :: r2 =>
    let ds := r2.takeWhile Char.isDigit
    (p.1 : ℚ) + ((scanDigits 0 ds).1 : ℚ) / (10 : ℚ) ^ ds.length
  | _ => (p.1 : ℚ)

/-- Model of Arduino `String::toFloat` (C `strtod` on the decimal forms
used here): skip leading whitespace, read an optional sign and
`digits[.digits]`, ignore trailing garbage, return 0 when nothing
parses. -/
def toFloatQ (l : List Char) : ℚ :=
  let l1 := l.dropWhile isSpaceA
  match l1 with
  | '-' :: r => -(unsignedFloatQ r)
  | '+' :: r => unsignedFloatQ r
  | _ => unsignedFloatQ l1

/-- C++ float-to-int conversion: truncation toward zero (`Int.tdiv` is
T-division). -/
def qTrunc (x : ℚ) : Int := Int.tdiv x.num (x.den : Int)

/-- C `round`: round half away from zero. -/
def qRound (x : ℚ) : Int :=
  if x < 0 then -⌊-x + 1 / 2⌋ else ⌊x + 1 / 2⌋

/-- Split a character list at the first occurrence of `d`, returning
the prefix before it and the suffix after it, or `none` when `d` does
not occur.  This models one step of the firmware's
`indexOf(d)` / `substring(0, idx)` / `substring(idx + 1)` scanning
idiom. -/
def breakAtChar (d : Char) : List Char → Option (List Char × List Char)
  | [] => none
  | c :: cs =>
    if c = d then some ([], cs)
    else
      match breakAtChar d cs with
      | none => none
      | some (p, r) => some (c :: p, r)

/-- All segments of `l` delimited by `d`: the pieces strictly between
successive occurrences of `d`, followed by the residual after the last
occurrence (the whole list when `d` is absent).  The firmware's
`while (endIdx != -1)` loops over `indexOf`/`substring` enumerate
exactly these segments in this order, the residual last. -/
def splitChar (d : Char) : List Char → List (List Char)
  | [] => [[]]
  | c :: cs =>
    if c = d then [] :: splitChar d cs
    else
      match splitChar d cs with
      | [] => [[c]]
      | s :: ss => (c :: s) :: ss

/-- Joining segments with a single delimiter character; inverse of
`splitChar` on delimiter-free segments. -/
def joinChar (d : Char) : List (List Char) → List Char
  | [] => []
  | [s] => s
  | s :: rest => s ++ d :: joinChar d rest

/-- Drop the final segment when it is empty.  A split of a string that
ends in a delimiter produces an empty residual, which the firmware's
`if (last.length() > 0)` guards skip. -/
def dropTrailingEmpty (l : List (List Char)) : List (List Char) :=
  if l.getLast? = some [] then l.dropLast else l

/-! ## Controller state -/

/-- One `FastAccelStepper` handle.  `connected` is false when
`engine.stepperConnectToPin` returned `NULL`; every firmware operation
on a stepper is guarded by a null check and is a no-op then. -/
structure Stepper where
  connected : Bool
  currentPos : Int
  target : Int
  speedHz : Int
  accel : Int
deriving DecidableEq

/-- The mutable state of `main.cpp`: the global `bypassClamp` flag, the
six stepper handles (index `i : Fin 6` stands for `stepper(i+1)`), the
global speed/acceleration gains `speedVar`/`accVar`, the boot uptime
read by `millis()`, the Bluetooth client flag, and the lines printed on
the USB serial and Bluetooth links. -/
structure MachineState where
  bypassClamp : Bool
  steppers : Fin 6 → Stepper
  speedVar : Int
  accVar : Int
  uptimeMs : Int
  btHasClient : Bool
  serialLog : List String
  btLog : List String

/-- The transcendental float operations used by the quaternion path
(`sqrt`, `atan2`, `asin`) and the double constant `180.0/PI`.  The
embedding is parametric in them; theorems assume only their values at
the points the firmware actually evaluates. -/
structure FloatOps where
  sqrtA : ℚ → ℚ
  atan2A : ℚ → ℚ → ℚ
  asinA : ℚ → ℚ
  radToDeg : ℚ

/-! ## Constants from `main.cpp` -/

/-- Calibration constant `STEPS_PER_MM 426.67` for direct axis
commands. -/
def STEPS_PER_MM : ℚ := 426.67

def SOFT_HOME_HEIGHT_MM : Int := -40
def SOFT_HOME_SPEED_MULT : ℚ := 2.0
def SOFT_HOME_ACCEL_MULT : ℚ := 2.0
def SOFT_HOME_SETTLE_MS : Nat := 2200

def BRUTE_HOME_PREP_HEIGHT_MM : Int := -55
def BRUTE_HOME_PREP_SPEED_MULT : ℚ := 2.5
def BRUTE_HOME_PREP_ACCEL_MULT : ℚ := 2.5
def BRUTE_HOME_PREP_SETTLE_MS : Nat := 2300

def BRUTE_HOME_HEIGHT_MM : Int := -80
def BRUTE_HOME_SPEED_MULT : ℚ := 3.0
def BRUTE_HOME_ACCEL_MULT : ℚ := 3.0
def BRUTE_HOME_SETTLE_MS : Nat := 2600

/-! ## moveHead: pose-to-target kinematics -/

/-- Scale factors of `moveHead` (all exactly representable floats, so
integer constants are exact here). -/
def pitchScale : Int := 10
def rollScale : Int := 10
def yawScale : Int := 10
def heightScale : Int := 400
def rollMovementScale : Int := 10
def pitchMovementScale : Int := 10
def minClampMm : Int := 0
def maxClampMm : Int := 80

/-- The six linear combinations `move1 .. move6` of `moveHead` before
the height offset is added, exactly as written in the source. -/
def mixMove (angleX angleY angleZ roll pitch : Int) : Fin 6 → Int
  | 0 => -angleX * pitchScale + angleY * rollScale + angleZ * yawScale +
      pitch * pitchMovementScale + roll * rollMovementScale
  | 1 => angleX * pitchScale - angleY * rollScale - angleZ * yawScale +
      pitch * pitchMovementScale + roll * rollMovementScale
  | 2 => -angleX * pitchScale - angleY * rollScale - angleZ * yawScale -
      pitch * pitchMovementScale + roll * rollMovementScale
  | 3 => angleX * pitchScale + angleY * rollScale - angleZ * yawScale -
      pitch * pitchMovementScale - roll * rollMovementScale
  | 4 => -angleX * pitchScale + angleY * rollScale - angleZ * yawScale +
      pitch * pitchMovementScale - roll * rollMovementScale
  | 5 => angleX * pitchScale - angleY * rollScale + angleZ * yawScale +
      pitch * pitchMovementScale - roll * rollMovementScale

/-- Raw (pre-clamp) target of stepper `i`: the mixing combination plus
the uniform height movement `heightOffset * heightScale`. -/
def rawMove (angleX angleY angleZ heightOffset roll pitch : Int) (i : Fin 6) : Int :=
  mixMove angleX angleY angleZ roll pitch i + heightOffset * heightScale

/-- The clamp block of `moveHead`: skipped entirely when `bypassClamp`
is set; otherwise a value below `minClampMm * heightScale` is raised to
that bound and then a value above `maxClampMm * heightScale` is lowered
to that bound. -/
def clampMove (bypass : Bool) (m : Int) : Int :=
  if bypass then m
  else
    let m1 := if m < minClampMm * heightScale then minClampMm * heightScale else m
    if m1 > maxClampMm * heightScale then maxClampMm * heightScale else m1

/-- Final target of stepper `i` as computed by `moveHead`. -/
def moveTargets (bypass : Bool) (angleX angleY angleZ heightOffset roll pitch : Int)
    (i : Fin 6) : Int :=
  clampMove bypass (rawMove angleX angleY angleZ heightOffset roll pitch i)

/-- The per-stepper tail of `moveHead`: `setSpeedInHz`,
`setAcceleration`, `moveTo`, all behind the null check. -/
def applyMove (s : Stepper) (spd acc tgt : Int) : Stepper :=
  if s.connected then { s with speedHz := spd, accel := acc, target := tgt } else s

/-- Model of `moveHead`: compute the six targets, clamp them unless
`bypassClamp` is set, scale speed and acceleration by the multipliers
(float-to-int truncation), and command every connected stepper. -/
def moveHead (st : MachineState) (angleX angleY angleZ heightOffset : Int)
    (speedMultiplier accelMultiplier : ℚ) (roll pitch : Int) : MachineState :=
  let newSpeed := qTrunc ((st.speedVar : ℚ) * speedMultiplier)
  let newAccel := qTrunc ((st.accVar : ℚ) * accelMultiplier)
  { st with
    steppers := fun i =>
      applyMove (st.steppers i) newSpeed newAccel
        (moveTargets st.bypassClamp angleX angleY angleZ heightOffset roll pitch i) }

/-! ## Direct stepper control -/

/-- Pointwise update used by `moveToStepper`: replace the target of the
stepper at index `i` (a no-op on a disconnected handle), leaving every
other index unchanged. -/
def updTarget (f : Fin 6 → Stepper) (i : Fin 6) (p : Int) : Fin 6 → Stepper :=
  fun j =>
    if j = i then (if (f j).connected then { f j with target := p } else f j)
    else f j

/-- Model of `moveToStepper`: the `switch (stepperNum)` with one
null-checked `moveTo` per case and the `default:` error print. -/
def moveToStepper (st : MachineState) (stepperNum : Int) (positionSteps : Int) :
    MachineState :=
  if stepperNum = 1 then { st with steppers := updTarget st.steppers 0 positionSteps }
  else if stepperNum = 2 then { st with steppers := updTarget st.steppers 1 positionSteps }
  else if stepperNum = 3 then { st with steppers := updTarget st.steppers 2 positionSteps }
  else if stepperNum = 4 then { st with steppers := updTarget st.steppers 3 positionSteps }
  else if stepperNum = 5 then { st with steppers := updTarget st.steppers 4 positionSteps }
  else if stepperNum = 6 then { st with steppers := updTarget st.steppers 5 positionSteps }
  else { st with serialLog := st.serialLog ++ ["Invalid stepper number"] }

/-- One `<stepperIndex>:<valueMM>` segment of a direct control command:
when the segment contains a colon, parse the index with `toInt` and the
millimetre value with `toFloat`, convert via `STEPS_PER_MM`
(float-to-int truncation) and call `moveToStepper`; otherwise do
nothing (this also covers the empty residual segment, which the source
skips with its `length() > 0` guard). -/
def applyAxisPair (st : MachineState) (seg : List Char) : MachineState :=
  match breakAtChar ':' seg with
  | some (pre, post) =>
    let stepperNum := atolChars pre
    let mmValue := toFloatQ post
    let positionSteps := qTrunc (mmValue * STEPS_PER_MM)
    moveToStepper st stepperNum positionSteps
  | none => st

/-- The direct-control branch of `executeCommand`: the comma scan
processes every segment before the last delimiter and then the residual
(executed only when nonempty and colon-bearing, which is exactly what
`applyAxisPair` does on it). -/
def directBranch (st : MachineState) (command : List Char) : MachineState :=
  List.foldl applyAxisPair st (splitChar ',' command)

/-! ## General movement commands -/

/-- The local pose accumulator of the general-movement branch, with the
source's defaults. -/
structure PoseAcc where
  angleX : Int
  angleY : Int
  angleZ : Int
  heightOffset : Int
  roll : Int
  pitch : Int
  speedMultiplier : ℚ
  accelMultiplier : ℚ
deriving DecidableEq

def defaultPose : PoseAcc :=
  { angleX := 0, angleY := 0, angleZ := 0, heightOffset := 0, roll := 0, pitch := 0,
    speedMultiplier := 1, accelMultiplier := 1 }

/-- One `<AxisLetter><value>` token of a general movement command: the
`switch (axis)` of the source.  The value is parsed with `toFloat`; the
integer axes truncate it on assignment, `S`/`A` keep the fraction.
Unrecognized letters fall through the switch unchanged; the empty
token (skipped by the source's `length() > 0` guard) has no head and is
also unchanged. -/
def applyGeneralToken (p : PoseAcc) (tok : List Char) : PoseAcc :=
  match tok.head? with
  | some 'X' => { p with angleX := qTrunc (toFloatQ (tok.drop 1)) }
  | some 'Y' => { p with angleY := qTrunc (toFloatQ (tok.drop 1)) }
  | some 'Z' => { p with angleZ := qTrunc (toFloatQ (tok.drop 1)) }
  | some 'H' => { p with heightOffset := qTrunc (toFloatQ (tok.drop 1)) }
  | some 'S' => { p with speedMultiplier := toFloatQ (tok.drop 1) }
  | some 'A' => { p with accelMultiplier := toFloatQ (tok.drop 1) }
  | some 'R' => { p with roll := qTrunc (toFloatQ (tok.drop 1)) }
  | some 'P' => { p with pitch := qTrunc (toFloatQ (tok.drop 1)) }
  | _ => p

/-- Pose parsed by the general-movement branch: the comma scan applies
every token in order to the defaults (so for a repeated axis letter the
last token wins). -/
def generalPose (command : List Char) : PoseAcc :=
  List.foldl applyGeneralToken defaultPose (splitChar ',' command)

/-- The general-movement branch of `executeCommand`: parse the tokens,
then `moveHead`. -/
def generalBranch (st : MachineState) (command : List Char) : MachineState :=
  let p := generalPose command
  moveHead st p.angleX p.angleY p.angleZ p.heightOffset p.speedMultiplier
    p.accelMultiplier p.roll p.pitch

/-! ## Quaternion commands -/

/-- Strip the leading `Q` and an optional colon, trimming after each
step, as `handleQuaternionCommand` does before tokenizing. -/
def stripQBody (command : List Char) : List Char :=
  let c1 := trimChars (command.drop 1)
  if c1.head? = some ':' then trimChars (c1.drop 1) else c1

/-- The quaternion tokenizer: the source scans comma segments into
`String tokens[6]` while `tokenCount < 6` and then adds the residual
only when it is nonempty and the cap is not reached.  Over the segment
list this is: all segments, minus an empty residual, truncated to the
first 6. -/
def tokenizeQuat (body : List Char) : List (List Char) :=
  List.take 6 (dropTrailingEmpty (splitChar ',' body))

/-- One optional trailing token of a quaternion command (the
`for (int i = 4; ...)` loop body): trim, then dispatch on the leading
letter; `H` reads an integer height, `S`/`A` read float multipliers,
anything else is ignored.  The accumulator is
`(heightOffset, speedMultiplier, accelMultiplier)`. -/
def applyQuatOpt (acc : Int × ℚ × ℚ) (tok : List Char) : Int × ℚ × ℚ :=
  let t := trimChars tok
  match t.head? with
  | some 'H' => (atolChars (t.drop 1), acc.2.1, acc.2.2)
  | some 'S' => (acc.1, toFloatQ (t.drop 1), acc.2.2)
  | some 'A' => (acc.1, acc.2.1, toFloatQ (t.drop 1))
  | _ => acc

/-- Token-level front end of `handleQuaternionCommand`: fail when fewer
than 4 tokens are present; otherwise the first four tokens are the
quaternion components `w,x,y,z` (parsed with `toFloat`) and the
remaining tokens feed the optional-token loop starting from the
defaults `(0, 1.0, 1.0)`. -/
def quatParamsFromTokens (tokens : List (List Char)) :
    Option ((Fin 4 → ℚ) × Int × ℚ × ℚ) :=
  if tokens.length < 4 then none
  else
    some (fun i => toFloatQ (tokens.getD i.val []),
      List.foldl applyQuatOpt (0, 1, 1) (tokens.drop 4))

/-- Quaternion-to-Euler conversion of the source on the normalized
quaternion, returning `(yaw_deg, pitch_deg, roll_deg)`:
`roll = atan2(2(wx+yz), 1-2(x²+y²))`, `pitch = asin(2(wy-zx))`,
`yaw = atan2(2(wz+xy), 1-2(y²+z²))`, each scaled by `180/PI` and
rounded with C `round`. -/
def quatEulerDegs (ops : FloatOps) (q : Fin 4 → ℚ) : Int × Int × Int :=
  let roll_rad := ops.atan2A (2 * (q 0 * q 1 + q 2 * q 3))
    (1 - 2 * (q 1 * q 1 + q 2 * q 2))
  let pitch_rad := ops.asinA (2 * (q 0 * q 2 - q 3 * q 1))
  let yaw_rad := ops.atan2A (2 * (q 0 * q 3 + q 1 * q 2))
    (1 - 2 * (q 2 * q 2 + q 3 * q 3))
  (qRound (yaw_rad * ops.radToDeg), qRound (pitch_rad * ops.radToDeg),
    qRound (roll_rad * ops.radToDeg))

/-- The debug line printed for every accepted quaternion command. -/
def quatDebugLine (yaw pitch roll : Int) : String :=
  "Quaternion command received. Euler angles (deg): Yaw=" ++ toString yaw ++
    ", Pitch=" ++ toString pitch ++ ", Roll=" ++ toString roll

/-- Model of `handleQuaternionCommand`: strip `Q[:]`, tokenize (at most
6 tokens), reject with a log line when fewer than 4 tokens are present;
compute the norm, reject with a log line when it is not positive;
otherwise normalize, convert to Euler degrees, print the debug line and
hand the pose to `moveHead` with the extra roll/pitch terms 0. -/
def handleQuaternionCommand (ops : FloatOps) (st : MachineState)
    (command : List Char) : MachineState :=
  let body := stripQBody command
  match quatParamsFromTokens (tokenizeQuat body) with
  | none =>
    { st with serialLog :=
        st.serialLog ++ ["Invalid quaternion command: not enough parameters."] }
  | some (q, heightOffset, speedMultiplier, accelMultiplier) =>
    let norm := ops.sqrtA (q 0 * q 0 + q 1 * q 1 + q 2 * q 2 + q 3 * q 3)
    if 0 < norm then
      let qn : Fin 4 → ℚ := fun i => q i / norm
      let degs := quatEulerDegs ops qn
      let st1 := { st with serialLog :=
          st.serialLog ++ [quatDebugLine degs.1 degs.2.1 degs.2.2] }
      moveHead st1 degs.1 degs.2.1 degs.2.2 heightOffset speedMultiplier
        accelMultiplier 0 0
    else
      { st with serialLog := st.serialLog ++ ["Invalid quaternion: norm is zero."] }

/-! ## Health report -/

/-- The status line of `emitHealthReport(Stream&)`. -/
def healthLine (st : MachineState) : String :=
  "HEALTH|DEVICE=NECK|ROLE=STEWART_NECK|PROTO=1|UPTIME_MS=" ++
    toString st.uptimeMs ++ "|BAUD=115200|BT_NAME=NECK_BT|MOTORS=6|SPEED_HZ=" ++
    toString st.speedVar ++ "|ACCEL=" ++ toString st.accVar ++
    "|BYPASS_CLAMP=" ++ (if st.bypassClamp then "1" else "0")

/-- Model of `emitHealthReport()`: always print on the USB serial, and
also on Bluetooth when a client is attached. -/
def emitHealthReport (st : MachineState) : MachineState :=
  { st with
    serialLog := st.serialLog ++ [healthLine st]
    btLog := if st.btHasClient then st.btLog ++ [healthLine st] else st.btLog }

/-! ## Homing sequencer -/

/-- Model of `setCurrentPosition(0)` behind the null check. -/
def zeroPosition (s : Stepper) : Stepper :=
  if s.connected then { s with currentPos := 0 } else s

/-- Model of `zeroAllSteppers`: software-zero every connected
stepper. -/
def zeroAllSteppers (st : MachineState) : MachineState :=
  { st with steppers := fun i => zeroPosition (st.steppers i) }

/-- Rendering of `String(int)` (decimal, `-` sign for negatives). -/
def intChars (n : Int) : List Char := (toString n).data

/-- Rendering of `String(float, 2)`: Arduino's `printFloat` prints the
sign, adds the rounding term 0.005 and emits two decimal digits; for a
value `x` this is the digit string of `round(x * 100)` with a point
before the last two digits. -/
def floatChars2 (x : ℚ) : List Char :=
  let neg := x < 0
  let y := if neg then -x else x
  let n := ⌊y * 100 + 1 / 2⌋
  let frac := n % 100
  (if neg then ['-'] else []) ++ intChars (n / 100) ++
    ['.'] ++ (if frac < 10 then '0' :: intChars frac else intChars frac)

/-- The command string `"H<height>,S<speed>,A<accel>"` synthesized by
`runHomeStep`. -/
def homeCmdChars (heightMm : Int) (speedMultiplier accelMultiplier : ℚ) :
    List Char :=
  'H' :: intChars heightMm ++ (',' :: 'S' :: floatChars2 speedMultiplier) ++
    (',' :: 'A' :: floatChars2 accelMultiplier)

/-- Model of `runHomeStep`, parameterized by the command executor it
re-enters (`executeCommand` in the source): save `bypassClamp`, set it,
execute the synthesized general-movement command, wait `settleMs`
(no observable state change in this model), software-zero all steppers,
restore the saved flag. -/
def runHomeStepWith (exec : MachineState → List Char → MachineState)
    (st : MachineState) (heightMm : Int) (speedMultiplier accelMultiplier : ℚ)
    (_settleMs : Nat) : MachineState :=
  let previousBypass := st.bypassClamp
  let st1 := { st with bypassClamp := true }
  let st2 := exec st1 (homeCmdChars heightMm speedMultiplier accelMultiplier)
  let st3 := zeroAllSteppers st2
  { st3 with bypassClamp := previousBypass }

/-- Model of `runSoftHome`. -/
def runSoftHomeWith (exec : MachineState → List Char → MachineState)
    (st : MachineState) : MachineState :=
  let st0 := { st with serialLog := st.serialLog ++ ["Executing HOME_SOFT command..."] }
  runHomeStepWith exec st0 SOFT_HOME_HEIGHT_MM SOFT_HOME_SPEED_MULT
    SOFT_HOME_ACCEL_MULT SOFT_HOME_SETTLE_MS

/-- Model of `runBruteHome` (the `delay(150)` between the phases has no
observable state change in this model). -/
def runBruteHomeWith (exec : MachineState → List Char → MachineState)
    (st : MachineState) : MachineState :=
  let st0 := { st with serialLog := st.serialLog ++ ["Executing HOME_BRUTE command..."] }
  let st1 := runHomeStepWith exec st0 BRUTE_HOME_PREP_HEIGHT_MM
    BRUTE_HOME_PREP_SPEED_MULT BRUTE_HOME_PREP_ACCEL_MULT BRUTE_HOME_PREP_SETTLE_MS
  runHomeStepWith exec st1 BRUTE_HOME_HEIGHT_MM BRUTE_HOME_SPEED_MULT
    BRUTE_HOME_ACCEL_MULT BRUTE_HOME_SETTLE_MS

/-! ## Command dispatch -/

/-- Body of `executeCommand`, with the executor used by the homing
branches abstracted (the source re-enters `executeCommand` there): trim;
ignore empty commands; `HOME`/`HOME_BRUTE`, `HOME_SOFT`,
`HEALTH`/`STATUS` (all case-insensitive); then a leading `Q` selects
the quaternion handler, a colon selects direct control, and anything
else is a general movement command. -/
def executeCommandWith (ops : FloatOps)
    (homeExec : MachineState → List Char → MachineState)
    (st : MachineState) (command0 : List Char) : MachineState :=
  let command := trimChars command0
  if command = [] then st
  else if eqIgnoreCase command (chars "HOME") ||
      eqIgnoreCase command (chars "HOME_BRUTE") then
    runBruteHomeWith homeExec st
  else if eqIgnoreCase command (chars "HOME_SOFT") then
    runSoftHomeWith homeExec st
  else if eqIgnoreCase command (chars "HEALTH") ||
      eqIgnoreCase command (chars "STATUS") then
    emitHealthReport st
  else if command.head? = some 'Q' then
    handleQuaternionCommand ops st command
  else if (breakAtChar ':' command).isSome then
    directBranch st command
  else
    generalBranch st command

/-- Fuel-indexed `executeCommand`.  The source recursion
`executeCommand → runHomeStep → executeCommand` has depth 2: the
synthesized inner command is a general movement command and recurses no
further, so fuel 2 suffices and the fuel-0 fallback is never reached
from `executeCommand`. -/
def executeCommandF (ops : FloatOps) :
    Nat → MachineState → List Char → MachineState
  | 0, st, _ => st
  | fuel + 1, st, command0 =>
    executeCommandWith ops (executeCommandF ops fuel) st command0

/-- Model of `executeCommand`. -/
def executeCommand (ops : FloatOps) (st : MachineState) (command : List Char) :
    MachineState :=
  executeCommandF ops 2 st command

/-- Processing of the pipe-separated segment list by `parseAndMove`:
every segment before the final delimiter is passed to `executeCommand`
unconditionally; the residual is executed only when nonempty. -/
def processCmds (ops : FloatOps) :
    MachineState → List (List Char) → MachineState
  | st, [] => st
  | st, [last] => if last = [] then st else executeCommand ops st last
  | st, seg :: rest => processCmds ops (executeCommand ops st seg) rest

/-- Model of `parseAndMove`: scan the input for `'|'` delimiters and
dispatch the segments in order. -/
def parseAndMove (ops : FloatOps) (st : MachineState) (input : List Char) :
    MachineState :=
  processCmds ops st (splitChar '|' input)

/-! ## Reference values for witnesses -/

/-- Concrete stand-in for the transcendental operations, agreeing with
the real (and IEEE-754) `sqrt`, `atan2`, `asin` at every point the
theorems below evaluate them: `sqrt 0 = 0`, `sqrt 1 = 1`,
`sqrt x > 0` for `x > 0`, `atan2 0 1 = 0`, `asin 0 = 0`. -/
def ops0 : FloatOps :=
  { sqrtA := id, atan2A := fun _ _ => 0, asinA := fun _ => 0,
    radToDeg := 5729578 / 100000 }

/-- A fully connected controller state right after `setup()`'s stepper
configuration, used by the concrete witnesses. -/
def initStepper : Stepper :=
  { connected := true, currentPos := 0, target := 0, speedHz := 48000,
    accel := 36000 }

def initState : MachineState :=
  { bypassClamp := false, steppers := fun _ => initStepper, speedVar := 48000,
    accVar := 36000, uptimeMs := 0, btHasClient := false, serialLog := [],
    btLog := [] }

/-! ## Spec-side reference definitions -/

/-- Transcription of the spec's fixed mixing matrix (section 4.2),
coefficient-first as written there: `m1 = -10X +10Y +10Z +10P +10R`
and so on, with the uniform height term `heightOffset * 400` added to
every row.  This definition follows the spec's words and is compared
with the source-derived `rawMove` in the refinement theorem. -/
def specMixTarget (angleX angleY angleZ heightOffset roll pitch : Int) :
    Fin 6 → Int
  | 0 => -10 * angleX + 10 * angleY + 10 * angleZ + 10 * pitch + 10 * roll +
      heightOffset * 400
  | 1 => 10 * angleX - 10 * angleY - 10 * angleZ + 10 * pitch + 10 * roll +
      heightOffset * 400
  | 2 => -10 * angleX - 10 * angleY - 10 * angleZ - 10 * pitch + 10 * roll +
      heightOffset * 400
  | 3 => 10 * angleX + 10 * angleY - 10 * angleZ - 10 * pitch - 10 * roll +
      heightOffset * 400
  | 4 => -10 * angleX + 10 * angleY - 10 * angleZ + 10 * pitch - 10 * roll +
      heightOffset * 400
  | 5 => 10 * angleX - 10 * angleY + 10 * angleZ + 10 * pitch - 10 * roll +
      heightOffset * 400

/-! ## Arithmetic helper lemmas -/

/-- Truncation toward zero agrees with the floor on nonnegative
rationals. -/
theorem qTrunc_eq_floor (x : ℚ) (h : 0 ≤ x) : qTrunc x = ⌊x⌋ := by
  rw [qTrunc, Int.tdiv_eq_ediv (Rat.num_nonneg.mpr h) (by positivity), Rat.floor_def]

/-- Truncation toward zero agrees with the ceiling on nonpositive
rationals. -/
theorem qTrunc_eq_ceil (x : ℚ) (h : x ≤ 0) : qTrunc x = ⌈x⌉ := by
  have hden : (-x).den = x.den := by
    rcases x with ⟨n, d, hd, hc⟩
    rfl
  have hnum : (-x).num = -x.num := Rat.num_neg_eq_neg_num x
  have h1 : qTrunc x = -qTrunc (-x) := by
    rw [qTrunc, qTrunc, hnum, hden, Int.neg_tdiv, Int.neg_neg]
  rw [h1, qTrunc_eq_floor (-x) (by linarith), ← Int.ceil_neg, neg_neg]

/-! ## C1: clamp policy saturates every target into the travel window -/

/-- C1: For every General Movement pose processed with `bypassClamp`
false, each of the six computed actuator targets equals the raw target
saturated to the nearest bound of
`[minClampMm * heightGain, maxClampMm * heightGain] = [0, 32000]`
(so a raw target outside the window is clamped, not rejected), and in
particular every computed target lies in `[0, 32000]`. -/
theorem clamp_saturates_targets (angleX angleY angleZ heightOffset roll pitch : Int)
    (i : Fin 6) :
    moveTargets false angleX angleY angleZ heightOffset roll pitch i =
      min (maxClampMm * heightScale)
        (max (minClampMm * heightScale)
          (rawMove angleX angleY angleZ heightOffset roll pitch i)) ∧
    0 ≤ moveTargets false angleX angleY angleZ heightOffset roll pitch i ∧
    moveTargets false angleX angleY angleZ heightOffset roll pitch i ≤ 32000 := by
  unfold moveTargets clampMove
  simp only [Bool.false_eq_true, if_false, minClampMm, maxClampMm, heightScale]
  refine ⟨?_, ?_, ?_⟩
  · rw [Int.min_def, Int.max_def]
    split_ifs <;> omega
  · split_ifs <;> omega
  · split_ifs <;> omega

/-! ## C3: the raw targets realize the spec's mixing matrix -/

/-- C3: For every pose, the six raw actuator targets computed by
`moveHead` before clamping equal the spec's antisymmetric mixing matrix
applied to `(angleX, angleY, angleZ, pitch, roll)` with coefficients of
magnitude 10 and the stated sign pattern, plus `heightOffset * 400`
added uniformly to all six rows. -/
theorem raw_targets_match_spec_matrix
    (angleX angleY angleZ heightOffset roll pitch : Int) (i : Fin 6) :
    rawMove angleX angleY angleZ heightOffset roll pitch i =
      specMixTarget angleX angleY angleZ heightOffset roll pitch i := by
  fin_cases i <;>
    simp only [rawMove, mixMove, specMixTarget, pitchScale, rollScale, yawScale,
      rollMovementScale, pitchMovementScale, heightScale] <;>
    ring

/-! ## Splitting and joining lemmas -/

theorem splitChar_ne_nil (d : Char) (l : List Char) : splitChar d l ≠ [] := by
  induction l with
  | nil => simp [splitChar]
  | cons c cs ih =>
    simp only [splitChar]
    split
    · simp
    · split
      · simp
      · simp

theorem splitChar_no_delim (d : Char) (l : List Char) (h : d ∉ l) :
    splitChar d l = [l] := by
  induction l with
  | nil => rfl
  | cons c cs ih =>
    have hc : ¬c = d := fun hcd => h (by simp [hcd])
    have hcs : d ∉ cs := fun hm => h (by simp [hm])
    simp only [splitChar, hc, if_false, ih hcs]

theorem splitChar_append_delim (d : Char) (s t : List Char) (h : d ∉ s) :
    splitChar d (s ++ d :: t) = s :: splitChar d t := by
  induction s with
  | nil => simp [splitChar]
  | cons c cs ih =>
    have hc : ¬c = d := fun hcd => h (by simp [hcd])
    have hcs : d ∉ cs := fun hm => h (by simp [hm])
    simp only [List.cons_append, splitChar, hc, if_false, List.append_eq, ih hcs]

/-- Splitting is a left inverse of joining on delimiter-free
segments. -/
theorem splitChar_joinChar (d : Char) (segs : List (List Char))
    (hne : segs ≠ []) (hfree : ∀ s ∈ segs, d ∉ s) :
    splitChar d (joinChar d segs) = segs := by
  induction segs with
  | nil => exact absurd rfl hne
  | cons s rest ih =>
    cases rest with
    | nil =>
      simp only [joinChar]
      exact splitChar_no_delim d s (hfree s (by simp))
    | cons t rest2 =>
      have h1 : splitChar d (s ++ d :: joinChar d (t :: rest2)) =
          s :: splitChar d (joinChar d (t :: rest2)) :=
        splitChar_append_delim d s _ (hfree s (by simp))
      have h2 : splitChar d (joinChar d (t :: rest2)) = t :: rest2 :=
        ih (by simp) (fun u hu => hfree u (by simp [hu]))
      simp only [joinChar, h1, h2]

/-! ## Dispatch and batch-processing lemmas -/

theorem dropTrailingEmpty_cons₂ (a b : List Char) (l : List (List Char)) :
    dropTrailingEmpty (a :: b :: l) = a :: dropTrailingEmpty (b :: l) := by
  simp only [dropTrailingEmpty, List.getLast?_cons_cons, List.dropLast_cons₂]
  split <;> rfl

/-- An all-whitespace command is ignored by `executeCommand` (the
`length() == 0` early return after trimming). -/
theorem executeCommand_blank (ops : FloatOps) (st : MachineState)
    (seg : List Char) (h : trimChars seg = []) :
    executeCommand ops st seg = st := by
  have h2 : executeCommand ops st seg =
      executeCommandWith ops (executeCommandF ops 1) st seg := rfl
  rw [h2, executeCommandWith, h]
  simp

/-- `processCmds` is the left fold of `executeCommand` over the segment
list with an empty trailing segment removed. -/
theorem processCmds_eq_foldl (ops : FloatOps) (segs : List (List Char))
    (st : MachineState) :
    processCmds ops st segs =
      List.foldl (executeCommand ops) st (dropTrailingEmpty segs) := by
  induction segs generalizing st with
  | nil => rfl
  | cons a rest ih =>
    cases rest with
    | nil =>
      by_cases ha : a = []
      · subst ha
        simp [processCmds, dropTrailingEmpty]
      · simp [processCmds, dropTrailingEmpty, ha]
    | cons b rest2 =>
      rw [show processCmds ops st (a :: b :: rest2) =
          processCmds ops (executeCommand ops st a) (b :: rest2) from rfl,
        ih, dropTrailingEmpty_cons₂, List.foldl_cons]

/-! ## C9: pipe-delimited batching -/

/-- C9: For every input line, the batch parser splits on the pipe
character and dispatches the segments to `executeCommand` independently
and in left-to-right order (a left fold); an empty trailing segment
after a trailing pipe is not executed (`dropTrailingEmpty`), while the
final segment of a line without a trailing delimiter is dispatched
(splitting is inverse to joining, so that segment is in the fold); each
segment is trimmed by `executeCommand`, and a segment that trims to
nothing is a no-op. -/
theorem pipe_batch_dispatch (ops : FloatOps) (st : MachineState)
    (input : List Char) :
    parseAndMove ops st input =
      List.foldl (executeCommand ops) st
        (dropTrailingEmpty (splitChar '|' input)) ∧
    (∀ segs : List (List Char), segs ≠ [] → (∀ s ∈ segs, '|' ∉ s) →
      splitChar '|' (joinChar '|' segs) = segs) ∧
    (∀ (st' : MachineState) (seg : List Char), trimChars seg = [] →
      executeCommand ops st' seg = st') := by
  refine ⟨?_, ?_, ?_⟩
  · exact processCmds_eq_foldl ops (splitChar '|' input) st
  · exact fun segs h1 h2 => splitChar_joinChar '|' segs h1 h2
  · exact fun st' seg h => executeCommand_blank ops st' seg h

/-- Witness for C9 at concrete inputs: a two-command join splits back
into its segments, and a whitespace-only segment is a no-op. -/
theorem pipe_batch_dispatch_witness :
    splitChar '|' (joinChar '|' [chars "H5", chars "HEALTH"]) =
      [chars "H5", chars "HEALTH"] ∧
    executeCommand ops0 initState (chars "   ") = initState :=
  ⟨(pipe_batch_dispatch ops0 initState []).2.1 [chars "H5", chars "HEALTH"]
      (by decide) (by decide),
    (pipe_batch_dispatch ops0 initState []).2.2 initState (chars "   ")
      (by decide)⟩

/-! ## C10: general-token parsing, truncation and last-wins -/

/-- C10: In a General Movement command every token value is parsed as a
float; for the axes `X,Y,Z,H,R,P` the value is truncated toward zero
when stored into the integer pose field, while `S` and `A` keep the
fraction; for repeated axis letters the last occurrence wins (the token
fold ends with the final occurrence, whatever tokens preceded it); and
concretely `"H-40.7"` parses to `heightOffset = -40`. -/
theorem general_tokens_trunc_last_wins :
    (∀ (pre : List (List Char)) (t : List Char) (v : ℚ),
      (t.head? = some 'X' → toFloatQ (t.drop 1) = v →
        (List.foldl applyGeneralToken defaultPose (pre ++ [t])).angleX = qTrunc v) ∧
      (t.head? = some 'Y' → toFloatQ (t.drop 1) = v →
        (List.foldl applyGeneralToken defaultPose (pre ++ [t])).angleY = qTrunc v) ∧
      (t.head? = some 'Z' → toFloatQ (t.drop 1) = v →
        (List.foldl applyGeneralToken defaultPose (pre ++ [t])).angleZ = qTrunc v) ∧
      (t.head? = some 'H' → toFloatQ (t.drop 1) = v →
        (List.foldl applyGeneralToken defaultPose (pre ++ [t])).heightOffset = qTrunc v) ∧
      (t.head? = some 'R' → toFloatQ (t.drop 1) = v →
        (List.foldl applyGeneralToken defaultPose (pre ++ [t])).roll = qTrunc v) ∧
      (t.head? = some 'P' → toFloatQ (t.drop 1) = v →
        (List.foldl applyGeneralToken defaultPose (pre ++ [t])).pitch = qTrunc v) ∧
      (t.head? = some 'S' → toFloatQ (t.drop 1) = v →
        (List.foldl applyGeneralToken defaultPose (pre ++ [t])).speedMultiplier = v) ∧
      (t.head? = some 'A' → toFloatQ (t.drop 1) = v →
        (List.foldl applyGeneralToken defaultPose (pre ++ [t])).accelMultiplier = v)) ∧
    generalPose (chars "H-40.7") = { defaultPose with heightOffset := -40 } := by
  constructor
  · intro pre t v
    refine ⟨?_, ?_, ?_, ?_, ?_, ?_, ?_, ?_⟩ <;>
      (intro hh hv
       rw [List.foldl_append, List.foldl_cons, List.foldl_nil]
       simp only [applyGeneralToken, hh, hv])
  · have h1 : toFloatQ (chars "-40.7") = -(407 / 10 : ℚ) := by
      simp +decide [toFloatQ, unsignedFloatQ, chars, scanDigits, isSpaceA,
        List.dropWhile, List.takeWhile]
      norm_num
    have h2 : qTrunc (-(407 / 10 : ℚ)) = -40 := by
      rw [qTrunc_eq_ceil _ (by norm_num), Int.ceil_eq_iff]
      norm_num
    show List.foldl applyGeneralToken defaultPose (splitChar ',' (chars "H-40.7")) = _
    rw [show splitChar ',' (chars "H-40.7") = [chars "H-40.7"] by decide,
      List.foldl_cons, List.foldl_nil]
    simp only [applyGeneralToken, show (chars "H-40.7").head? = some 'H' by decide]
    rw [show List.drop 1 (chars "H-40.7") = chars "-40.7" from rfl, h1, h2]

/-- Witness for C10: the final `H` token both wins over an earlier one
and is truncated toward zero. -/
theorem general_tokens_trunc_last_wins_witness :
    (chars "H-40.7").head? = some 'H' ∧
    toFloatQ ((chars "H-40.7").drop 1) = -(407 / 10 : ℚ) ∧
    (List.foldl applyGeneralToken defaultPose
        ([chars "H5"] ++ [chars "H-40.7"])).heightOffset =
      qTrunc (-(407 / 10 : ℚ)) := by
  have ht : toFloatQ ((chars "H-40.7").drop 1) = -(407 / 10 : ℚ) := by
    simp +decide [toFloatQ, unsignedFloatQ, chars, scanDigits, isSpaceA,
      List.dropWhile, List.takeWhile]
    norm_num
  exact ⟨by decide, ht,
    (general_tokens_trunc_last_wins.1 [chars "H5"] (chars "H-40.7")
        (-(407 / 10 : ℚ))).2.2.2.1 (by decide) ht⟩

/-! ## C6: direct axis command -/

/-- C6: The direct-axis command `"1:30"` sets actuator 1's raw target
to `round(30 * STEPS_PER_MM) = 12800` steps — for every prior state, so
in particular regardless of `bypassClamp`, and with no clamp applied to
the converted value — and leaves the handles of actuators 2 through 6
untouched.  (On a disconnected handle the move is the usual silent
no-op.) -/
theorem direct_axis_single_pair (ops : FloatOps) (st : MachineState) :
    ((executeCommand ops st (chars "1:30")).steppers 0).target =
      (if (st.steppers 0).connected then (12800 : Int)
        else (st.steppers 0).target) ∧
    (12800 : Int) = qRound (30 * STEPS_PER_MM) ∧
    (executeCommand ops st (chars "1:30")).steppers 1 = st.steppers 1 ∧
    (executeCommand ops st (chars "1:30")).steppers 2 = st.steppers 2 ∧
    (executeCommand ops st (chars "1:30")).steppers 3 = st.steppers 3 ∧
    (executeCommand ops st (chars "1:30")).steppers 4 = st.steppers 4 ∧
    (executeCommand ops st (chars "1:30")).steppers 5 = st.steppers 5 := by
  have hdisp : executeCommand ops st (chars "1:30") =
      directBranch st (chars "1:30") := rfl
  have h30 : toFloatQ (chars "30") = 30 := by
    simp +decide [toFloatQ, unsignedFloatQ, chars, scanDigits, isSpaceA,
      List.dropWhile]
  have hsteps : qTrunc (toFloatQ (chars "30") * STEPS_PER_MM) = 12800 := by
    rw [h30, qTrunc_eq_floor _ (by norm_num [STEPS_PER_MM]), Int.floor_eq_iff]
    · norm_num [STEPS_PER_MM]
  have hround : qRound (30 * STEPS_PER_MM) = 12800 := by
    rw [qRound, if_neg (by norm_num [STEPS_PER_MM]), Int.floor_eq_iff]
    · norm_num [STEPS_PER_MM]
  have hone : executeCommand ops st (chars "1:30") =
      moveToStepper st (atolChars (chars "1"))
        (qTrunc (toFloatQ (chars "30") * STEPS_PER_MM)) := by
    rw [hdisp, directBranch,
      show splitChar ',' (chars "1:30") = [chars "1:30"] by decide,
      List.foldl_cons, List.foldl_nil]
    simp only [applyAxisPair,
      show breakAtChar ':' (chars "1:30") = some (chars "1", chars "30") by decide]
  have hms : moveToStepper st 1 12800 =
      { st with steppers := updTarget st.steppers 0 12800 } := by
    simp [moveToStepper]
  rw [hone, show atolChars (chars "1") = 1 by decide, hsteps, hms]
  refine ⟨?_, hround.symm, ?_, ?_, ?_, ?_, ?_⟩
  · simp only [updTarget, if_pos rfl]
    by_cases hc : (st.steppers 0).connected
    · simp [hc]
    · simp [hc]
  all_goals simp [updTarget]

/-! ## C8: out-of-range stepper indices -/

theorem moveToStepper_out_of_range (st : MachineState) (n p : Int)
    (h : n < 1 ∨ 6 < n) :
    moveToStepper st n p =
      { st with serialLog := st.serialLog ++ ["Invalid stepper number"] } := by
  have h1 : n ≠ 1 := by omega
  have h2 : n ≠ 2 := by omega
  have h3 : n ≠ 3 := by omega
  have h4 : n ≠ 4 := by omega
  have h5 : n ≠ 5 := by omega
  have h6 : n ≠ 6 := by omega
  simp only [moveToStepper, if_neg h1, if_neg h2, if_neg h3, if_neg h4,
    if_neg h5, if_neg h6]

theorem moveToStepper_steppers_congr (st st' : MachineState) (n p : Int)
    (h : st.steppers = st'.steppers) :
    (moveToStepper st n p).steppers = (moveToStepper st' n p).steppers := by
  simp only [moveToStepper]
  split_ifs <;> simp only [] <;> rw [h]

theorem applyAxisPair_steppers_congr (st st' : MachineState) (seg : List Char)
    (h : st.steppers = st'.steppers) :
    (applyAxisPair st seg).steppers = (applyAxisPair st' seg).steppers := by
  simp only [applyAxisPair]
  cases hb : breakAtChar ':' seg with
  | none => exact h
  | some pr => exact moveToStepper_steppers_congr st st' _ _ h

theorem foldl_applyAxisPair_steppers_congr (segs : List (List Char))
    (st st' : MachineState) (h : st.steppers = st'.steppers) :
    (List.foldl applyAxisPair st segs).steppers =
      (List.foldl applyAxisPair st' segs).steppers := by
  induction segs generalizing st st' with
  | nil => exact h
  | cons seg rest ih =>
    exact ih (applyAxisPair st seg) (applyAxisPair st' seg)
      (applyAxisPair_steppers_congr st st' seg h)

/-- C8: In a direct-axis command, a pair whose stepper index is outside
1..6 is reported with the `"Invalid stepper number"` error and is
otherwise a no-op (first conjunct); dropping such a pair anywhere in
the comma-separated pair list leaves the steppers of the final state
unchanged, so every other pair still executes and no out-of-range index
aborts the remainder (second conjunct); concretely, in the batch
`"9:10,2:45"` the invalid first pair is logged while the second pair
still moves actuator 2 to `trunc(45 * STEPS_PER_MM) = 19200` steps. -/
theorem out_of_range_pair_skipped :
    (∀ (st : MachineState) (n p : Int), n < 1 ∨ 6 < n →
      moveToStepper st n p =
        { st with serialLog := st.serialLog ++ ["Invalid stepper number"] }) ∧
    (∀ (st : MachineState) (segs1 segs2 : List (List Char))
        (bad pre post : List Char),
      breakAtChar ':' bad = some (pre, post) →
      atolChars pre < 1 ∨ 6 < atolChars pre →
      (List.foldl applyAxisPair st (segs1 ++ bad :: segs2)).steppers =
        (List.foldl applyAxisPair st (segs1 ++ segs2)).steppers) ∧
    ((executeCommand ops0 initState (chars "9:10,2:45")).steppers 1).target =
      19200 ∧
    (executeCommand ops0 initState (chars "9:10,2:45")).serialLog =
      ["Invalid stepper number"] := by
  have hbadpair : ∀ (st : MachineState) (bad pre post : List Char),
      breakAtChar ':' bad = some (pre, post) →
      atolChars pre < 1 ∨ 6 < atolChars pre →
      applyAxisPair st bad =
        { st with serialLog := st.serialLog ++ ["Invalid stepper number"] } := by
    intro st bad pre post hb hn
    simp only [applyAxisPair, hb]
    exact moveToStepper_out_of_range st _ _ hn
  refine ⟨fun st n p h => moveToStepper_out_of_range st n p h, ?_, ?_, ?_⟩
  · intro st segs1 segs2 bad pre post hb hn
    rw [List.foldl_append, List.foldl_append, List.foldl_cons,
      hbadpair _ bad pre post hb hn]
    exact foldl_applyAxisPair_steppers_congr segs2 _ _ rfl
  all_goals {
    have hd : executeCommand ops0 initState (chars "9:10,2:45") =
        directBranch initState (chars "9:10,2:45") := rfl
    have h45 : toFloatQ (chars "45") = 45 := by
      simp +decide [toFloatQ, unsignedFloatQ, chars, scanDigits, isSpaceA,
        List.dropWhile]
    have hsteps : qTrunc (toFloatQ (chars "45") * STEPS_PER_MM) = 19200 := by
      rw [h45, qTrunc_eq_floor _ (by norm_num [STEPS_PER_MM]), Int.floor_eq_iff]
      · norm_num [STEPS_PER_MM]
    have h1 : applyAxisPair initState (chars "9:10") =
        { initState with
          serialLog := initState.serialLog ++ ["Invalid stepper number"] } := by
      apply hbadpair initState (chars "9:10") (chars "9") (chars "10")
      · decide
      · right
        decide
    have h2 : ∀ st' : MachineState, applyAxisPair st' (chars "2:45") =
        moveToStepper st' 2 19200 := by
      intro st'
      simp only [applyAxisPair,
        show breakAtChar ':' (chars "2:45") = some (chars "2", chars "45") by decide,
        show atolChars (chars "2") = 2 by decide, hsteps]
    have h3 : ∀ st' : MachineState, moveToStepper st' 2 19200 =
        { st' with steppers := updTarget st'.steppers 1 19200 } := by
      intro st'
      simp [moveToStepper]
    rw [hd, directBranch,
      show splitChar ',' (chars "9:10,2:45") = [chars "9:10", chars "2:45"]
        by decide,
      List.foldl_cons, List.foldl_cons, List.foldl_nil, h1, h2, h3]
    simp [updTarget, initState, initStepper]
  }

/-- Witness for C8: an out-of-range index 9 only logs the error, and
deleting the invalid pair `"0:1"` from a batch does not change the
resulting steppers. -/
theorem out_of_range_pair_skipped_witness :
    moveToStepper initState 9 0 =
      { initState with
        serialLog := initState.serialLog ++ ["Invalid stepper number"] } ∧
    (List.foldl applyAxisPair initState
        ([chars "2:45"] ++ chars "0:1" :: [])).steppers =
      (List.foldl applyAxisPair initState ([chars "2:45"] ++ [])).steppers :=
  ⟨out_of_range_pair_skipped.1 initState 9 0 (by norm_num),
    out_of_range_pair_skipped.2.1 initState [chars "2:45"] [] (chars "0:1")
      (chars "0") (chars "1") (by decide) (by decide)⟩

/-! ## C5: invalid quaternion commands are rejected -/

/-- C5: A quaternion command with fewer than 4 comma-separated
components, or whose four components have zero norm, is logged and
entirely aborted: the resulting state differs from the prior state only
by the error line on the serial log, so no pose is computed, no
actuator is moved, and the quaternion is never silently replaced by a
default rotation.  (The only assumption on the square root is
`sqrt 0 = 0`, true of the real function and of `sqrtf`.) -/
theorem invalid_quaternion_rejected (ops : FloatOps) (st : MachineState)
    (command : List Char) (h0 : ops.sqrtA 0 = 0) :
    ((tokenizeQuat (stripQBody command)).length < 4 →
      handleQuaternionCommand ops st command =
        { st with serialLog :=
            st.serialLog ++ ["Invalid quaternion command: not enough parameters."] }) ∧
    (∀ (q : Fin 4 → ℚ) (hgt : Int) (s a : ℚ),
      quatParamsFromTokens (tokenizeQuat (stripQBody command)) =
        some (q, hgt, s, a) →
      q 0 = 0 → q 1 = 0 → q 2 = 0 → q 3 = 0 →
      handleQuaternionCommand ops st command =
        { st with serialLog :=
            st.serialLog ++ ["Invalid quaternion: norm is zero."] }) := by
  constructor
  · intro hlen
    have hnone : quatParamsFromTokens (tokenizeQuat (stripQBody command)) = none := by
      rw [quatParamsFromTokens, if_pos hlen]
    simp only [handleQuaternionCommand, hnone]
  · intro q hgt s a hsome hq0 hq1 hq2 hq3
    simp only [handleQuaternionCommand, hsome, hq0, hq1, hq2, hq3]
    norm_num [h0]

/-- Witness for C5: `"Q:1,2"` (two components) and `"Q:0,0,0,0"`
(zero norm) are both rejected with only a log line. -/
theorem invalid_quaternion_rejected_witness :
    (tokenizeQuat (stripQBody (chars "Q:1,2"))).length < 4 ∧
    handleQuaternionCommand ops0 initState (chars "Q:1,2") =
      { initState with serialLog := initState.serialLog ++
          ["Invalid quaternion command: not enough parameters."] } ∧
    handleQuaternionCommand ops0 initState (chars "Q:0,0,0,0") =
      { initState with serialLog := initState.serialLog ++
          ["Invalid quaternion: norm is zero."] } := by
  have hz : toFloatQ (chars "0") = 0 := by
    simp +decide [toFloatQ, unsignedFloatQ, chars, scanDigits, isSpaceA,
      List.dropWhile]
  have hq : ∀ i : Fin 4,
      toFloatQ ((tokenizeQuat (stripQBody (chars "Q:0,0,0,0"))).getD i.val []) = 0 := by
    intro i
    fin_cases i <;>
      (rw [show (tokenizeQuat (stripQBody (chars "Q:0,0,0,0"))).getD _ [] = chars "0"
        by decide]
       exact hz)
  refine ⟨by decide,
    (invalid_quaternion_rejected ops0 initState (chars "Q:1,2") rfl).1 (by decide),
    (invalid_quaternion_rejected ops0 initState (chars "Q:0,0,0,0") rfl).2
      (fun i => toFloatQ ((tokenizeQuat (stripQBody (chars "Q:0,0,0,0"))).getD i.val []))
      0 1 1 ?_ (hq 0) (hq 1) (hq 2) (hq 3)⟩
  rw [quatParamsFromTokens, if_neg (by decide),
    show List.drop 4 (tokenizeQuat (stripQBody (chars "Q:0,0,0,0"))) = [] by decide,
    List.foldl_nil]

/-! ## C4: quaternion optional tokens and the 6-token cap -/

/-- C4 counterexample: the command body `"1,0,0,0,H10,S2,A3"` carries
all three optional tokens, but the tokenizer caps at 6 tokens
(`String tokens[6]`), so `A3` is dropped: the parsed
`(height, speed, accel)` is `(10, 2, 1)` — the acceleration multiplier
stays at its default 1 instead of the claimed 3. -/
theorem quat_three_opt_tokens_drop_third :
    (quatParamsFromTokens (tokenizeQuat (chars "1,0,0,0,H10,S2,A3"))).map
        (fun r => r.2) = some (10, (2 : ℚ), (1 : ℚ)) ∧
    (quatParamsFromTokens (tokenizeQuat (chars "1,0,0,0,H10,S2,A3"))).map
        (fun r => r.2.2.2) ≠ some (3 : ℚ) := by
  have h2 : toFloatQ (chars "2") = 2 := by
    simp +decide [toFloatQ, unsignedFloatQ, chars, scanDigits, isSpaceA,
      List.dropWhile]
  have hfull : quatParamsFromTokens (tokenizeQuat (chars "1,0,0,0,H10,S2,A3")) =
      some (fun i => toFloatQ
          ([chars "1", chars "0", chars "0", chars "0", chars "H10",
            chars "S2"].getD i.val []), 10, 2, 1) := by
    rw [show tokenizeQuat (chars "1,0,0,0,H10,S2,A3") =
        [chars "1", chars "0", chars "0", chars "0", chars "H10", chars "S2"]
        by decide,
      quatParamsFromTokens, if_neg (by decide),
      show List.drop 4 [chars "1", chars "0", chars "0", chars "0",
        chars "H10", chars "S2"] = [chars "H10", chars "S2"] from rfl,
      List.foldl_cons, List.foldl_cons, List.foldl_nil]
    simp only [applyQuatOpt,
      show (trimChars (chars "H10")).head? = some 'H' by decide,
      show (trimChars (chars "S2")).head? = some 'S' by decide,
      show atolChars ((trimChars (chars "H10")).drop 1) = 10 by decide,
      show (trimChars (chars "S2")).drop 1 = chars "2" by decide, h2]
  refine ⟨by rw [hfull]; rfl, ?_⟩
  rw [hfull]
  simp only [Option.map_some', ne_eq, Option.some.injEq]
  norm_num

/-- C4 amended: a quaternion command parses four components `w,x,y,z`
in fixed order (the first four tokens), and accepts the optional
trailing tokens `H`, `S`, `A` in any order and any subset of at most
two, each taking effect through the optional-token fold; a nonempty,
comma-free token list of at most 6 tokens is recovered intact by the
tokenizer, while a seventh segment — the third optional token — is
dropped by the 6-token cap.  Concretely, `A` then `H` (reversed order)
both take effect. -/
theorem quat_opt_tokens_cap_amended :
    (∀ chunks : List (List Char), chunks ≠ [] →
      (∀ s ∈ chunks, s ≠ [] ∧ ',' ∉ s) → chunks.length ≤ 6 →
      tokenizeQuat (joinChar ',' chunks) = chunks) ∧
    (∀ q4 opts : List (List Char), q4.length = 4 →
      quatParamsFromTokens (q4 ++ opts) =
        some (fun i => toFloatQ (q4.getD i.val []),
          List.foldl applyQuatOpt (0, 1, 1) opts)) ∧
    (quatParamsFromTokens (tokenizeQuat (chars "1,0,0,0,A2.5,H7"))).map
        (fun r => r.2) = some (7, (1 : ℚ), (5 / 2 : ℚ)) := by
  refine ⟨?_, ?_, ?_⟩
  · intro chunks hne hs hlen
    have hsplit : splitChar ',' (joinChar ',' chunks) = chunks :=
      splitChar_joinChar ',' chunks hne (fun s hm => (hs s hm).2)
    have hlast : dropTrailingEmpty chunks = chunks := by
      rw [dropTrailingEmpty, if_neg]
      intro hcon
      rcases List.getLast?_eq_some_iff.mp hcon with ⟨l2, hl2⟩
      exact (hs [] (by rw [hl2]; simp)).1 rfl
    rw [tokenizeQuat, hsplit, hlast, List.take_of_length_le hlen]
  · intro q4 opts h4
    have hlen : ¬(q4 ++ opts).length < 4 := by
      simp [List.length_append, h4]
    rw [quatParamsFromTokens, if_neg hlen, List.drop_left' h4]
    have hq : (fun i : Fin 4 => toFloatQ ((q4 ++ opts).getD i.val [])) =
        (fun i : Fin 4 => toFloatQ (q4.getD i.val [])) := by
      funext i
      rw [List.getD_append]
      omega
    rw [hq]
  · have h25 : toFloatQ (chars "2.5") = 5 / 2 := by
      simp +decide [toFloatQ, unsignedFloatQ, chars, scanDigits, isSpaceA,
        List.dropWhile, List.takeWhile]
      norm_num
    have hfull : quatParamsFromTokens (tokenizeQuat (chars "1,0,0,0,A2.5,H7")) =
        some (fun i => toFloatQ
            ([chars "1", chars "0", chars "0", chars "0", chars "A2.5",
              chars "H7"].getD i.val []), 7, 1, 5 / 2) := by
      rw [show tokenizeQuat (chars "1,0,0,0,A2.5,H7") =
          [chars "1", chars "0", chars "0", chars "0", chars "A2.5", chars "H7"]
          by decide,
        quatParamsFromTokens, if_neg (by decide),
        show List.drop 4 [chars "1", chars "0", chars "0", chars "0",
          chars "A2.5", chars "H7"] = [chars "A2.5", chars "H7"] from rfl,
        List.foldl_cons, List.foldl_cons, List.foldl_nil]
      simp only [applyQuatOpt,
        show (trimChars (chars "A2.5")).head? = some 'A' by decide,
        show (trimChars (chars "H7")).head? = some 'H' by decide,
        show atolChars ((trimChars (chars "H7")).drop 1) = 7 by decide,
        show (trimChars (chars "A2.5")).drop 1 = chars "2.5" by decide, h25]
    rw [hfull]
    rfl

/-- Witness for C4 at concrete inputs: a five-token body (one optional
token) tokenizes to exactly its chunks, and one optional token after
the quaternion takes effect through the fold. -/
theorem quat_opt_tokens_cap_amended_witness :
    tokenizeQuat (joinChar ','
        [chars "1", chars "0", chars "0", chars "0", chars "H10"]) =
      [chars "1", chars "0", chars "0", chars "0", chars "H10"] ∧
    quatParamsFromTokens ([chars "1", chars "0", chars "0", chars "0"] ++
        [chars "S2"]) =
      some (fun i => toFloatQ
          ([chars "1", chars "0", chars "0", chars "0"].getD i.val []),
        List.foldl applyQuatOpt (0, 1, 1) [chars "S2"]) :=
  ⟨quat_opt_tokens_cap_amended.1
      [chars "1", chars "0", chars "0", chars "0", chars "H10"]
      (by decide) (by decide) (by decide),
    quat_opt_tokens_cap_amended.2.1
      [chars "1", chars "0", chars "0", chars "0"] [chars "S2"] (by decide)⟩

/-! ## C7: identity quaternion matches the H0 command -/

/-- C7: The quaternion command `"Q:1,0,0,0"` (identity rotation, no
optional tokens) yields Euler angles yaw = pitch = roll = 0 degrees,
and produces exactly the six-actuator target set (with speeds and
accelerations) of the General Movement command `"H0"` with default
multipliers.  The only assumptions are the values of the embedded math
functions at the points evaluated — `sqrt 1 = 1`, `atan2 0 1 = 0`,
`asin 0 = 0` — true of the real functions and their float
implementations. -/
theorem identity_quaternion_matches_h0 (ops : FloatOps) (st : MachineState)
    (h1 : ops.sqrtA 1 = 1) (h2 : ops.atan2A 0 1 = 0) (h3 : ops.asinA 0 = 0) :
    quatEulerDegs ops (fun i => toFloatQ
        ((tokenizeQuat (stripQBody (chars "Q:1,0,0,0"))).getD i.val [])) =
      (0, 0, 0) ∧
    (executeCommand ops st (chars "Q:1,0,0,0")).steppers =
      (executeCommand ops st (chars "H0")).steppers := by
  have hone : toFloatQ (chars "1") = 1 := by
    simp +decide [toFloatQ, unsignedFloatQ, chars, scanDigits, isSpaceA,
      List.dropWhile]
  have hzero : toFloatQ (chars "0") = 0 := by
    simp +decide [toFloatQ, unsignedFloatQ, chars, scanDigits, isSpaceA,
      List.dropWhile]
  have hq0 : toFloatQ
      ((tokenizeQuat (stripQBody (chars "Q:1,0,0,0"))).getD 0 []) = 1 := by
    rw [show (tokenizeQuat (stripQBody (chars "Q:1,0,0,0"))).getD 0 [] = chars "1"
      by decide]
    exact hone
  have hq1 : toFloatQ
      ((tokenizeQuat (stripQBody (chars "Q:1,0,0,0"))).getD 1 []) = 0 := by
    rw [show (tokenizeQuat (stripQBody (chars "Q:1,0,0,0"))).getD 1 [] = chars "0"
      by decide]
    exact hzero
  have hq2 : toFloatQ
      ((tokenizeQuat (stripQBody (chars "Q:1,0,0,0"))).getD 2 []) = 0 := by
    rw [show (tokenizeQuat (stripQBody (chars "Q:1,0,0,0"))).getD 2 [] = chars "0"
      by decide]
    exact hzero
  have hq3 : toFloatQ
      ((tokenizeQuat (stripQBody (chars "Q:1,0,0,0"))).getD 3 []) = 0 := by
    rw [show (tokenizeQuat (stripQBody (chars "Q:1,0,0,0"))).getD 3 [] = chars "0"
      by decide]
    exact hzero
  have hqr : qRound (0 : ℚ) = 0 := by
    rw [qRound, if_neg (by norm_num), Int.floor_eq_iff]
    norm_num
  constructor
  · simp only [quatEulerDegs]
    simp only [show ((0 : Fin 4) : Nat) = 0 from rfl,
      show ((1 : Fin 4) : Nat) = 1 from rfl, show ((2 : Fin 4) : Nat) = 2 from rfl,
      show ((3 : Fin 4) : Nat) = 3 from rfl, hq0, hq1, hq2, hq3]
    norm_num [h2, h3, hqr]
  · have hparams : quatParamsFromTokens (tokenizeQuat (stripQBody (chars "Q:1,0,0,0"))) =
        some (fun i => toFloatQ
          ((tokenizeQuat (stripQBody (chars "Q:1,0,0,0"))).getD i.val []), 0, 1, 1) := by
      rw [quatParamsFromTokens, if_neg (by decide),
        show List.drop 4 (tokenizeQuat (stripQBody (chars "Q:1,0,0,0"))) = []
          by decide,
        List.foldl_nil]
    have hL : executeCommand ops st (chars "Q:1,0,0,0") =
        handleQuaternionCommand ops st (chars "Q:1,0,0,0") := rfl
    have hR : executeCommand ops st (chars "H0") = generalBranch st (chars "H0") := rfl
    have hpose : generalPose (chars "H0") = defaultPose := by
      rw [generalPose, show splitChar ',' (chars "H0") = [chars "H0"] by decide,
        List.foldl_cons, List.foldl_nil]
      simp only [applyGeneralToken, show (chars "H0").head? = some 'H' by decide,
        hzero]
      rfl
    rw [hL, hR, generalBranch, hpose]
    simp only [handleQuaternionCommand, hparams, quatEulerDegs]
    simp only [show ((0 : Fin 4) : Nat) = 0 from rfl,
      show ((1 : Fin 4) : Nat) = 1 from rfl, show ((2 : Fin 4) : Nat) = 2 from rfl,
      show ((3 : Fin 4) : Nat) = 3 from rfl, hq0, hq1, hq2, hq3]
    norm_num [h1, h2, h3, hqr]
    rfl

/-- Witness for C7 at a concrete state and concrete math functions
agreeing with `sqrt`, `atan2`, `asin` at the evaluated points. -/
theorem identity_quaternion_matches_h0_witness :
    quatEulerDegs ops0 (fun i => toFloatQ
        ((tokenizeQuat (stripQBody (chars "Q:1,0,0,0"))).getD i.val [])) =
      (0, 0, 0) ∧
    (executeCommand ops0 initState (chars "Q:1,0,0,0")).steppers =
      (executeCommand ops0 initState (chars "H0")).steppers :=
  identity_quaternion_matches_h0 ops0 initState rfl rfl rfl

/-! ## C2: homing restores the clamp flag and zeroes positions -/

theorem moveHead_preserves (st : MachineState) (angleX angleY angleZ heightOffset : Int)
    (sm am : ℚ) (roll pitch : Int) :
    (moveHead st angleX angleY angleZ heightOffset sm am roll pitch).bypassClamp =
      st.bypassClamp ∧
    ∀ i : Fin 6,
      ((moveHead st angleX angleY angleZ heightOffset sm am roll pitch).steppers i).currentPos =
        (st.steppers i).currentPos ∧
      ((moveHead st angleX angleY angleZ heightOffset sm am roll pitch).steppers i).connected =
        (st.steppers i).connected := by
  refine ⟨rfl, fun i => ?_⟩
  simp only [moveHead, applyMove]
  by_cases hc : (st.steppers i).connected <;> simp [hc]

theorem generalBranch_preserves (st : MachineState) (command : List Char) :
    (generalBranch st command).bypassClamp = st.bypassClamp ∧
    ∀ i : Fin 6,
      ((generalBranch st command).steppers i).currentPos = (st.steppers i).currentPos ∧
      ((generalBranch st command).steppers i).connected = (st.steppers i).connected := by
  exact moveHead_preserves st _ _ _ _ _ _ _ _

theorem zeroAllSteppers_props (st : MachineState) :
    (zeroAllSteppers st).bypassClamp = st.bypassClamp ∧
    ∀ i : Fin 6,
      ((zeroAllSteppers st).steppers i).currentPos =
        (if (st.steppers i).connected then 0 else (st.steppers i).currentPos) ∧
      ((zeroAllSteppers st).steppers i).connected = (st.steppers i).connected := by
  refine ⟨rfl, fun i => ?_⟩
  simp only [zeroAllSteppers, zeroPosition]
  by_cases hc : (st.steppers i).connected <;> simp [hc]

/-- Effect of one `runHomeStep` phase, given that the synthesized
command dispatches to the general-movement branch (which it always
does; the hypothesis is discharged by computing the dispatch on each
concrete homing command): the saved `bypassClamp` is restored on exit,
and every connected stepper's current position is software-zeroed. -/
theorem runHomeStep_props (exec : MachineState → List Char → MachineState)
    (st : MachineState) (heightMm : Int) (sm am : ℚ) (ms : Nat)
    (hexec : ∀ st' : MachineState, exec st' (homeCmdChars heightMm sm am) =
      generalBranch st' (homeCmdChars heightMm sm am)) :
    (runHomeStepWith exec st heightMm sm am ms).bypassClamp = st.bypassClamp ∧
    ∀ i : Fin 6,
      ((runHomeStepWith exec st heightMm sm am ms).steppers i).currentPos =
        (if (st.steppers i).connected then 0 else (st.steppers i).currentPos) ∧
      ((runHomeStepWith exec st heightMm sm am ms).steppers i).connected =
        (st.steppers i).connected := by
  have hx : runHomeStepWith exec st heightMm sm am ms =
      { zeroAllSteppers (generalBranch { st with bypassClamp := true }
          (homeCmdChars heightMm sm am)) with bypassClamp := st.bypassClamp } := by
    simp only [runHomeStepWith, hexec]
  refine ⟨by rw [hx], fun i => ?_⟩
  rw [hx]
  have hg := (generalBranch_preserves { st with bypassClamp := true }
    (homeCmdChars heightMm sm am)).2 i
  have hz := (zeroAllSteppers_props
    (generalBranch { st with bypassClamp := true } (homeCmdChars heightMm sm am))).2 i
  constructor
  · show ((zeroAllSteppers (generalBranch { st with bypassClamp := true }
        (homeCmdChars heightMm sm am))).steppers i).currentPos = _
    rw [hz.1, hg.2, hg.1]
  · show ((zeroAllSteppers (generalBranch { st with bypassClamp := true }
        (homeCmdChars heightMm sm am))).steppers i).connected = _
    rw [hz.2, hg.2]

theorem floatChars2_brute_prep :
    floatChars2 BRUTE_HOME_PREP_SPEED_MULT = chars "2.50" := by
  have hfloor : ⌊BRUTE_HOME_PREP_SPEED_MULT * 100 + 1 / 2⌋ = (250 : Int) := by
    rw [Int.floor_eq_iff]
    norm_num [BRUTE_HOME_PREP_SPEED_MULT]
  simp only [floatChars2,
    if_neg (show ¬BRUTE_HOME_PREP_SPEED_MULT < 0 by norm_num [BRUTE_HOME_PREP_SPEED_MULT]),
    hfloor]
  decide

theorem floatChars2_brute_main :
    floatChars2 BRUTE_HOME_SPEED_MULT = chars "3.00" := by
  have hfloor : ⌊BRUTE_HOME_SPEED_MULT * 100 + 1 / 2⌋ = (300 : Int) := by
    rw [Int.floor_eq_iff]
    norm_num [BRUTE_HOME_SPEED_MULT]
  simp only [floatChars2,
    if_neg (show ¬BRUTE_HOME_SPEED_MULT < 0 by norm_num [BRUTE_HOME_SPEED_MULT]),
    hfloor]
  decide

theorem floatChars2_soft :
    floatChars2 SOFT_HOME_SPEED_MULT = chars "2.00" := by
  have hfloor : ⌊SOFT_HOME_SPEED_MULT * 100 + 1 / 2⌋ = (200 : Int) := by
    rw [Int.floor_eq_iff]
    norm_num [SOFT_HOME_SPEED_MULT]
  simp only [floatChars2,
    if_neg (show ¬SOFT_HOME_SPEED_MULT < 0 by norm_num [SOFT_HOME_SPEED_MULT]),
    hfloor]
  decide

theorem homeCmd_brute_prep :
    homeCmdChars BRUTE_HOME_PREP_HEIGHT_MM BRUTE_HOME_PREP_SPEED_MULT
      BRUTE_HOME_PREP_ACCEL_MULT = chars "H-55,S2.50,A2.50" := by
  rw [homeCmdChars,
    show BRUTE_HOME_PREP_ACCEL_MULT = BRUTE_HOME_PREP_SPEED_MULT from rfl,
    floatChars2_brute_prep]
  decide

theorem homeCmd_brute_main :
    homeCmdChars BRUTE_HOME_HEIGHT_MM BRUTE_HOME_SPEED_MULT
      BRUTE_HOME_ACCEL_MULT = chars "H-80,S3.00,A3.00" := by
  rw [homeCmdChars,
    show BRUTE_HOME_ACCEL_MULT = BRUTE_HOME_SPEED_MULT from rfl,
    floatChars2_brute_main]
  decide

theorem homeCmd_soft :
    homeCmdChars SOFT_HOME_HEIGHT_MM SOFT_HOME_SPEED_MULT
      SOFT_HOME_ACCEL_MULT = chars "H-40,S2.00,A2.00" := by
  rw [homeCmdChars,
    show SOFT_HOME_ACCEL_MULT = SOFT_HOME_SPEED_MULT from rfl,
    floatChars2_soft]
  decide

theorem exec_home_inner_brute_prep (ops : FloatOps) (st' : MachineState) :
    executeCommandF ops 1 st' (homeCmdChars BRUTE_HOME_PREP_HEIGHT_MM
        BRUTE_HOME_PREP_SPEED_MULT BRUTE_HOME_PREP_ACCEL_MULT) =
      generalBranch st' (homeCmdChars BRUTE_HOME_PREP_HEIGHT_MM
        BRUTE_HOME_PREP_SPEED_MULT BRUTE_HOME_PREP_ACCEL_MULT) := by
  rw [homeCmd_brute_prep]
  rfl

theorem exec_home_inner_brute_main (ops : FloatOps) (st' : MachineState) :
    executeCommandF ops 1 st' (homeCmdChars BRUTE_HOME_HEIGHT_MM
        BRUTE_HOME_SPEED_MULT BRUTE_HOME_ACCEL_MULT) =
      generalBranch st' (homeCmdChars BRUTE_HOME_HEIGHT_MM
        BRUTE_HOME_SPEED_MULT BRUTE_HOME_ACCEL_MULT) := by
  rw [homeCmd_brute_main]
  rfl

theorem exec_home_inner_soft (ops : FloatOps) (st' : MachineState) :
    executeCommandF ops 1 st' (homeCmdChars SOFT_HOME_HEIGHT_MM
        SOFT_HOME_SPEED_MULT SOFT_HOME_ACCEL_MULT) =
      generalBranch st' (homeCmdChars SOFT_HOME_HEIGHT_MM
        SOFT_HOME_SPEED_MULT SOFT_HOME_ACCEL_MULT) := by
  rw [homeCmd_soft]
  rfl

/-- Effect of the full two-phase brute homing sequence. -/
theorem runBruteHome_props (ops : FloatOps) (st : MachineState) :
    (runBruteHomeWith (executeCommandF ops 1) st).bypassClamp = st.bypassClamp ∧
    ∀ i : Fin 6,
      ((runBruteHomeWith (executeCommandF ops 1) st).steppers i).currentPos =
        (if (st.steppers i).connected then 0 else (st.steppers i).currentPos) ∧
      ((runBruteHomeWith (executeCommandF ops 1) st).steppers i).connected =
        (st.steppers i).connected := by
  have h1 := runHomeStep_props (executeCommandF ops 1)
    { st with serialLog := st.serialLog ++ ["Executing HOME_BRUTE command..."] }
    BRUTE_HOME_PREP_HEIGHT_MM BRUTE_HOME_PREP_SPEED_MULT BRUTE_HOME_PREP_ACCEL_MULT
    BRUTE_HOME_PREP_SETTLE_MS (exec_home_inner_brute_prep ops)
  have h2 := runHomeStep_props (executeCommandF ops 1)
    (runHomeStepWith (executeCommandF ops 1)
      { st with serialLog := st.serialLog ++ ["Executing HOME_BRUTE command..."] }
      BRUTE_HOME_PREP_HEIGHT_MM BRUTE_HOME_PREP_SPEED_MULT BRUTE_HOME_PREP_ACCEL_MULT
      BRUTE_HOME_PREP_SETTLE_MS)
    BRUTE_HOME_HEIGHT_MM BRUTE_HOME_SPEED_MULT BRUTE_HOME_ACCEL_MULT
    BRUTE_HOME_SETTLE_MS (exec_home_inner_brute_main ops)
  rw [runBruteHomeWith]
  refine ⟨by rw [h2.1, h1.1], fun i => ?_⟩
  have h1i := h1.2 i
  have h2i := h2.2 i
  constructor
  · rw [h2i.1, h1i.2, h1i.1]
    by_cases hc : (st.steppers i).connected <;> simp [hc]
  · rw [h2i.2, h1i.2]

/-- Effect of the single-phase soft homing sequence. -/
theorem runSoftHome_props (ops : FloatOps) (st : MachineState) :
    (runSoftHomeWith (executeCommandF ops 1) st).bypassClamp = st.bypassClamp ∧
    ∀ i : Fin 6,
      ((runSoftHomeWith (executeCommandF ops 1) st).steppers i).currentPos =
        (if (st.steppers i).connected then 0 else (st.steppers i).currentPos) ∧
      ((runSoftHomeWith (executeCommandF ops 1) st).steppers i).connected =
        (st.steppers i).connected := by
  have h1 := runHomeStep_props (executeCommandF ops 1)
    { st with serialLog := st.serialLog ++ ["Executing HOME_SOFT command..."] }
    SOFT_HOME_HEIGHT_MM SOFT_HOME_SPEED_MULT SOFT_HOME_ACCEL_MULT
    SOFT_HOME_SETTLE_MS (exec_home_inner_soft ops)
  rw [runSoftHomeWith]
  exact ⟨h1.1, fun i => (h1.2 i)⟩

/-- C2: Executing `HOME`, `HOME_BRUTE` or `HOME_SOFT` leaves
`bypassClamp` equal to its pre-call value (in particular false when
called from an ordinary state) for every starting state — the
save/restore of `runHomeStep` brackets each phase — and leaves every
connected actuator's current position at 0 (a disconnected handle is
untouched, as everywhere). -/
theorem home_commands_restore (ops : FloatOps) (st : MachineState) (i : Fin 6) :
    ((executeCommand ops st (chars "HOME")).bypassClamp = st.bypassClamp ∧
      ((executeCommand ops st (chars "HOME")).steppers i).currentPos =
        (if (st.steppers i).connected then 0 else (st.steppers i).currentPos)) ∧
    ((executeCommand ops st (chars "HOME_BRUTE")).bypassClamp = st.bypassClamp ∧
      ((executeCommand ops st (chars "HOME_BRUTE")).steppers i).currentPos =
        (if (st.steppers i).connected then 0 else (st.steppers i).currentPos)) ∧
    ((executeCommand ops st (chars "HOME_SOFT")).bypassClamp = st.bypassClamp ∧
      ((executeCommand ops st (chars "HOME_SOFT")).steppers i).currentPos =
        (if (st.steppers i).connected then 0 else (st.steppers i).currentPos)) := by
  have hdHome : executeCommand ops st (chars "HOME") =
      runBruteHomeWith (executeCommandF ops 1) st := rfl
  have hdBrute : executeCommand ops st (chars "HOME_BRUTE") =
      runBruteHomeWith (executeCommandF ops 1) st := rfl
  have hdSoft : executeCommand ops st (chars "HOME_SOFT") =
      runSoftHomeWith (executeCommandF ops 1) st := rfl
  have hb := runBruteHome_props ops st
  have hs := runSoftHome_props ops st
  exact ⟨⟨by rw [hdHome, hb.1], by rw [hdHome, (hb.2 i).1]⟩,
    ⟨by rw [hdBrute, hb.1], by rw [hdBrute, (hb.2 i).1]⟩,
    ⟨by rw [hdSoft, hs.1], by rw [hdSoft, (hs.2 i).1]⟩⟩
